import Mathlib

/-!
Verification development for the NUV agent inference pipeline
(`nuvion_app/inference/pipeline.py`).

The Python code is shallowly embedded: pure helpers become Lean
functions over `List Char` / `String`, wall-clock instants (Python
floats produced by `time.time()`) are modelled as rationals, fallible
operations return `Option`, and the stateful dispatcher methods become
explicit state-passing step functions folded over input traces.
-/

/-- Whitespace test matching the ASCII whitespace handled by Python
`str.split()` / `str.strip()` in the SDP payloads that
`parse_rtp_sdp` receives (space, tab, newline, carriage return). -/
def isWsC (c : Char) : Bool :=
  c == ' ' || c == '\t' || c == '\n' || c == '\r'

/-- Accumulator worker for `splitOnC`; mirrors Python `str.split(sep)`
which keeps empty chunks. -/
def splitOnAuxC (sep : Char) : List Char → List Char → List (List Char)
  | [], acc => [acc.reverse]
  | c :: cs, acc =>
    if c == sep then acc.reverse :: splitOnAuxC sep cs []
    else splitOnAuxC sep cs (c :: acc)

/-- Python `str.split(sep)` on character lists (empty chunks kept). -/
def splitOnC (sep : Char) (l : List Char) : List (List Char) :=
  splitOnAuxC sep l []

/-- Accumulator worker for `splitWsC`; mirrors Python `str.split()`
with no separator (runs of whitespace, empty tokens discarded). -/
def splitWsAux : List Char → List Char → List (List Char)
  | [], acc => if acc.isEmpty then [] else [acc.reverse]
  | c :: cs, acc =>
    if isWsC c then
      if acc.isEmpty then splitWsAux cs []
      else acc.reverse :: splitWsAux cs []
    else splitWsAux cs (c :: acc)

/-- Python `str.split()` (no separator argument) on character lists. -/
def splitWsC (l : List Char) : List (List Char) :=
  splitWsAux l []

/-- Python `str.strip()` on character lists. -/
def trimC (l : List Char) : List Char :=
  ((l.dropWhile isWsC).reverse.dropWhile isWsC).reverse

/-- Python `needle in haystack` substring containment. -/
def containsC (needle : List Char) : List Char → Bool
  | [] => needle.isEmpty
  | c :: cs => needle.isPrefixOf (c :: cs) || containsC needle cs

/-- Value of a nonempty digit run, or `none`; worker for `pyInt?`. -/
def digitsValGo : List Char → Nat → Option Nat
  | [], acc => some acc
  | c :: cs, acc =>
    if c.isDigit then digitsValGo cs (acc * 10 + (c.toNat - 48))
    else none

/-- Nonempty all-digit character list to its numeric value. -/
def digitsVal? (l : List Char) : Option Nat :=
  if l.isEmpty then none else digitsValGo l 0

/-- Python `int(s)` as applied by `parse_rtp_sdp` to whitespace-free
tokens: an optional leading minus sign followed by decimal digits
(`none` models the `ValueError` path). -/
def pyInt? : List Char → Option Int
  | '-' :: rest => (digitsVal? rest).map (fun n => -(n : Int))
  | l => (digitsVal? l).map (fun n => (n : Int))

/-- The stripped, nonempty lines of an SDP body: embeds
`[line.strip() for line in sdp.splitlines() if line.strip()]`
(line separators modelled as the newline character; a carriage return
before it is removed by the strip). -/
def sdpLinesC (sdp : List Char) : List (List Char) :=
  ((splitOnC '\n' sdp).map trimC).filter (fun l => ¬ l.isEmpty)

/-- Embedding of `parse_rtp_sdp` (pipeline.py lines 175-214): scans the
stripped nonempty lines for the first `c=` line (third whitespace token
is the address), the first `m=video` line (tokens 2 and 4 are port and
payload type), and the first `a=rtpmap:` line containing `H264` (the
part of its first token after the colon overrides the payload type);
each fallible extraction falls back to the defaults
`("0.0.0.0", 5004, 96)` exactly as the Python `try`/`except` blocks do. -/
def parse_rtp_sdp (sdp : String) : String × Int × Int :=
  let lines := sdpLinesC sdp.toList
  let ip : List Char :=
    match lines.find? (fun l => List.isPrefixOf ['c', '='] l) with
    | some line =>
      match splitWsC line with
      | _ :: _ :: p2 :: _ => p2
      | _ => "0.0.0.0".toList
    | none => "0.0.0.0".toList
  let portPt : Int × Int :=
    match lines.find? (fun l => List.isPrefixOf "m=video".toList l) with
    | some line =>
      match splitWsC line with
      | _ :: p1 :: _ :: p3 :: _ => ((pyInt? p1).getD 5004, (pyInt? p3).getD 96)
      | _ => (5004, 96)
    | none => (5004, 96)
  let pt : Int :=
    match lines.find? (fun l =>
        List.isPrefixOf "a=rtpmap:".toList l && containsC "H264".toList l) with
    | some line =>
      match splitOnC ':' ((splitWsC line).headD []) with
      | _ :: s1 :: _ => (pyInt? s1).getD portPt.2
      | _ => portPt.2
    | none => portPt.2
  (String.mk ip, portPt.1, pt)

/-- Worker for `extract_host_from_server_url`: the characters after the
first `//` of the URL, or `none` when there is no authority part. -/
def afterDoubleSlash : List Char → Option (List Char)
  | [] => none
  | '/' :: '/' :: rest => some rest
  | _ :: rest => afterDoubleSlash rest

/-- The characters after the last occurrence of `sep` (the whole list
when `sep` does not occur); mirrors Python `str.rpartition(sep)[2]`. -/
def afterLastC (sep : Char) (l : List Char) : List Char :=
  ((l.reverse.takeWhile (fun c => c != sep)).reverse)

/-- Embedding of `extract_host_from_server_url` (pipeline.py lines
170-172), that is `urlparse(url).hostname or "127.0.0.1"` for URLs with
a scheme: the authority is the part between the first `//` and the next
`/`, `?` or `#`; user info before a `@` and a `:port` suffix are
removed and the host is lowercased (ASCII; IPv6 bracket syntax is not
modelled). An absent or empty host yields `127.0.0.1`. -/
def extract_host_from_server_url (url : String) : String :=
  match afterDoubleSlash url.toList with
  | none => "127.0.0.1"
  | some rest =>
    let netloc := rest.takeWhile (fun c => c != '/' && c != '?' && c != '#')
    let hostinfo := afterLastC '@' netloc
    let host := (hostinfo.takeWhile (fun c => c != ':')).map Char.toLower
    if host.isEmpty then "127.0.0.1" else String.mk host

/-- A decoded `RTP_ENDPOINT_READY` command body as read by
`handle_rtp_endpoint_ready` via `data.get(...)`: absent JSON keys are
`none`. Ports and payload types are modelled as integers. -/
structure RtpCommand where
  typ : String
  broadcastId : Option String
  ip : Option String
  port : Option Int
  payloadType : Option Int
  sdp : Option String
deriving DecidableEq

/-- The endpoint-resolution stage of `handle_rtp_endpoint_ready`
(pipeline.py lines 444-460): when any of `ip`, `port`, `payloadType` is
missing, all three fall back to the values parsed from the `sdp` field
(an absent or empty `sdp` aborts the handler, modelled as `none`). -/
def resolveEndpoint (cmd : RtpCommand) : Option (String × Int × Int) :=
  match cmd.ip, cmd.port, cmd.payloadType with
  | some i, some p, some t => some (i, p, t)
  | _, _, _ =>
    match cmd.sdp with
    | none => none
    | some s =>
      if s = "" then none
      else
        let parsed := parse_rtp_sdp s
        some (cmd.ip.getD parsed.1, cmd.port.getD parsed.2.1,
              cmd.payloadType.getD parsed.2.2)

/-- Embedding of `handle_rtp_endpoint_ready` (pipeline.py lines
427-477) from the point where the JSON body has been decoded: the
type and broadcast-id guards, the endpoint resolution of
`resolveEndpoint`, the IP override logic and the pipeline-app check, in
the source's order. The result is `some (host, port, pt)` when the
handler reaches `g_app.configure_rtp_sink(ip, int(port), int(pt))`,
carrying the arguments of that call, and `none` when the handler
returns early. `override` is `RTP_REMOTE_IP_ENV` (falsy when empty),
`serverUrl` is `SERVER_BASE_URL`, `username` is `DEVICE_USERNAME`,
`gAppPresent` is the truthiness of `g_app`. -/
def handle_rtp_endpoint_ready (override serverUrl username : String)
    (gAppPresent : Bool) (cmd : RtpCommand) : Option (String × Int × Int) :=
  if cmd.typ ≠ "RTP_ENDPOINT_READY" then none
  else if (match cmd.broadcastId with
           | some b => b != "" && b != username
           | none => false) then none
  else
    match resolveEndpoint cmd with
    | none => none
    | some (ip0, port, pt) =>
      let ip1 :=
        if override ≠ "" then override
        else if ip0 = "0.0.0.0" then extract_host_from_server_url serverUrl
        else ip0
      if ¬ gAppPresent then none else some (ip1, port, pt)

/-- The server-advertised RTP address of a command: the `ip` field when
present, otherwise the address parsed from the `sdp` field. This is the
value the override logic of `handle_rtp_endpoint_ready` starts from. -/
def advertisedIp (cmd : RtpCommand) : Option String :=
  match cmd.ip with
  | some i => some i
  | none => (cmd.sdp).map (fun s => (parse_rtp_sdp s).1)

/-- State of the outbound STOMP machinery of pipeline.py: `ready`
models `outbound_queue is not None and signaling_loop is not None`, and
`msgs` is the content of the `asyncio.Queue` as
(destination, payload) pairs. -/
structure OutboundState where
  ready : Bool
  msgs : List (String × String)
deriving DecidableEq

/-- Embedding of `enqueue_stomp_message` (pipeline.py lines 383-395)
together with the deferred `_enqueue` closure it schedules with
`call_soon_threadsafe`: when the machinery is not ready the call
returns `False` and drops the message; otherwise it returns `True` and
the scheduled closure places the message on the queue unless
`put_nowait` raises `QueueFull`, in which case the message is dropped
with a warning. `maxsize` is `OUTBOUND_QUEUE_MAX`; following
`asyncio.Queue`, `maxsize = 0` means unbounded. -/
def enqueue_stomp_message (maxsize : Nat) (s : OutboundState)
    (destination payload : String) : OutboundState × Bool :=
  if ¬ s.ready then (s, false)
  else if maxsize = 0 ∨ s.msgs.length < maxsize then
    ({ s with msgs := s.msgs ++ [(destination, payload)] }, true)
  else (s, true)

/-- Restatement of the outbound queueing contract as amended: the
return value reports only whether the outbound machinery was ready, and
the message lands on the queue exactly when the machinery is ready and
the queue has room. -/
def enqueueAmendedSpec (maxsize : Nat) (s : OutboundState)
    (destination payload : String) : OutboundState × Bool :=
  (if s.ready ∧ (maxsize = 0 ∨ s.msgs.length < maxsize) then
     { s with msgs := s.msgs ++ [(destination, payload)] }
   else s,
   s.ready)

/-- Outcome of one `urllib.request.urlopen` attempt as observed by
`api_request`: a 2xx response whose body parses to a JSON value
(abstracted as an optional string, `none` for an empty body), a 2xx
response whose body fails to parse (the raised error is swallowed by
the generic handler), a non-2xx response raising `HTTPError` with its
status code, or any other exception. -/
inductive HttpResult where
  | success (body : Option String)
  | badJson
  | httpError (code : Nat)
  | netError
deriving DecidableEq

/-- The mutable module-level `auth_token` of pipeline.py, protected by
`auth_token_lock`. -/
structure AuthState where
  token : Option String
deriving DecidableEq

/-- Embedding of `refresh_auth_token` (pipeline.py lines 298-305):
`loginResult` is what the blocking `login()` round-trip would yield; on
success the shared token is replaced and returned, on failure the state
is untouched and `none` is returned. -/
def refresh_auth_token (loginResult : Option String) (s : AuthState) :
    AuthState × Option String :=
  match loginResult with
  | some t => ({ token := some t }, some t)
  | none => (s, none)

/-- Embedding of `api_request` with `retry=False` (pipeline.py lines
308-337): obtain a token (`get_auth_token() or refresh_auth_token()`),
perform the attempt, and return the parsed body on a 2xx response and
`none` on every error, including a 401 (no further retry). -/
def api_request_noretry (loginResult : Option String) (resp : HttpResult)
    (s : AuthState) : AuthState × Option String :=
  let s1 := match s.token with
    | some _ => s
    | none => (refresh_auth_token loginResult s).1
  match resp with
  | .success body => (s1, body)
  | .badJson => (s1, none)
  | .httpError _ => (s1, none)
  | .netError => (s1, none)

/-- Embedding of `api_request` with the default `retry=True`
(pipeline.py lines 308-337). `resp` answers the first HTTP attempt and
`retryResp` the retried one; `loginResult` answers any `login()` call.
The third component counts the HTTP attempts made. On a 401 the stored
token is cleared and refreshed; the request is retried once only when
the refresh yields a token. Every other error path returns `none`
after one attempt. -/
def api_request (loginResult : Option String) (resp retryResp : HttpResult)
    (s : AuthState) : AuthState × Option String × Nat :=
  let s1 := match s.token with
    | some _ => s
    | none => (refresh_auth_token loginResult s).1
  match resp with
  | .success body => (s1, body, 1)
  | .badJson => (s1, none, 1)
  | .httpError code =>
    if code = 401 then
      let s2 : AuthState := { token := none }
      let r := refresh_auth_token loginResult s2
      match r.2 with
      | some _ =>
        let r2 := api_request_noretry loginResult retryResp r.1
        (r2.1, r2.2, 2)
      | none => (r.1, none, 1)
    else (s1, none, 1)
  | .netError => (s1, none, 1)

/-- The result a single HTTP attempt produces for its caller: the
parsed body on a plain 2xx response and `none` otherwise. Used to state
the amended retry contract. -/
def attemptResult : HttpResult → Option String
  | .success body => body
  | _ => none

/-- Alert status values of the dispatcher, the Python string constants
`"NORMAL"` and `"DEFECT"`. -/
inductive AStatus where
  | normal
  | defect
deriving DecidableEq

/-- The send-debounce fields of `NuvionEventState` read and written by
`send_status` (pipeline.py lines 554-644). The clip fields only shape
the payload, not the emission decision, and are modelled separately. -/
structure SendState where
  lastStatus : Option AStatus
  lastSentStatus : Option AStatus
  lastSentAt : ℚ
deriving DecidableEq

/-- The fields of `NuvionEventState.__init__` relevant to
`send_status`. -/
def initSendState : SendState :=
  { lastStatus := none, lastSentStatus := none, lastSentAt := 0 }

/-- One call to `send_status`: the computed status, the wall clock
`time.time()` at entry, and whether `enqueue_stomp_message` reports
success (it returns `False` exactly when the outbound machinery is not
ready, see `enqueue_stomp_message`). -/
structure SendInput where
  status : AStatus
  now : ℚ
  enqueueOk : Bool
deriving DecidableEq

/-- Embedding of `NuvionEventState.send_status` (pipeline.py lines
596-644) restricted to its emission decision and debounce state:
returns the updated state and `some (status, now)` when a message for
`/app/device/anomaly` was enqueued with `enqueue_stomp_message`
returning `True`. `minInterval` is `ANOMALY_MIN_INTERVAL_SEC`. -/
def send_status_step (minInterval : ℚ) (s : SendState) (i : SendInput) :
    SendState × Option (AStatus × ℚ) :=
  let statusChanged := s.lastSentStatus = none ∨ s.lastSentStatus ≠ some i.status
  let s0 := { s with lastStatus := some i.status }
  if s.lastSentStatus = none ∧ i.status = .normal then (s0, none)
  else if statusChanged ∨ (i.status = .defect ∧ i.now - s.lastSentAt ≥ minInterval) then
    if i.enqueueOk then
      ({ s0 with lastSentStatus := some i.status, lastSentAt := i.now },
       some (i.status, i.now))
    else (s0, none)
  else (s0, none)

/-- Folding `send_status_step` over a trace of calls, collecting the
emitted (status, time) pairs in order. -/
def send_status_run (minInterval : ℚ) (s : SendState) :
    List SendInput → SendState × List (AStatus × ℚ)
  | [] => (s, [])
  | i :: is =>
    let r := send_status_step minInterval s i
    let rest := send_status_run minInterval r.1 is
    (rest.1, r.2.toList ++ rest.2)

/-- The emissions of a `send_status` trace started from the initial
dispatcher state. -/
def send_status_emissions (minInterval : ℚ) (inputs : List SendInput) :
    List (AStatus × ℚ) :=
  (send_status_run minInterval initSendState inputs).2

/-- The clip bookkeeping of `NuvionEventState`, all mutated under
`clip_lock`: `inProgress` and `lastStarted` are the Python fields;
`inFlight` is a ghost counter of running `_capture_and_upload_clip`
workers, used to state the single-upload invariant. -/
structure ClipState where
  inProgress : Bool
  lastStarted : ℚ
  inFlight : Nat
deriving DecidableEq

/-- The clip fields of `NuvionEventState.__init__`. -/
def initClipState : ClipState :=
  { inProgress := false, lastStarted := 0, inFlight := 0 }

/-- An event of the clip subsystem: a call to `start_clip_upload` at
wall-clock `now` (with `metaOk` abstracting whether
`request_upload_url()` returned a response carrying both `objectName`
and `uploadUrl`), or the final cleanup of a worker spawned by a
successful start (the `finally` block of `_capture_and_upload_clip`).
Events carry their wall-clock time. -/
inductive ClipEvent where
  | start (now : ℚ) (metaOk : Bool)
  | finish (now : ℚ)
deriving DecidableEq

/-- The wall-clock time of a clip event. -/
def clipEventTime : ClipEvent → ℚ
  | .start now _ => now
  | .finish now => now

/-- Embedding of `NuvionEventState.start_clip_upload` (pipeline.py
lines 646-676) and the `finally` cleanup of `_capture_and_upload_clip`
(lines 694-695) as one atomic step per event. A start returns `true`
exactly when it returns a non-`None` object name, which spawns a
worker; a failed metadata request clears `clip_in_progress` but keeps
`clip_last_started` at the attempt time. A finish performs the worker
cleanup (a no-op when no worker is in flight, since only spawned
workers finish). `clipEnabled` is `self.clip_enabled and CLIP_ENABLED`;
`cooldown` is `CLIP_COOLDOWN_SEC`. -/
def clip_step (clipEnabled : Bool) (cooldown : ℚ) (s : ClipState) :
    ClipEvent → ClipState × Bool
  | .start now metaOk =>
    if ¬ clipEnabled then (s, false)
    else if s.inProgress then (s, false)
    else if now - s.lastStarted < cooldown then (s, false)
    else if metaOk then
      ({ inProgress := true, lastStarted := now, inFlight := s.inFlight + 1 },
       true)
    else
      ({ s with inProgress := false, lastStarted := now }, false)
  | .finish _ =>
    if s.inFlight = 0 then (s, false)
    else ({ s with inProgress := false, inFlight := s.inFlight - 1 }, false)

/-- Folding `clip_step` over a trace of events, collecting the times of
the successful starts in order. -/
def clip_run (clipEnabled : Bool) (cooldown : ℚ) (s : ClipState) :
    List ClipEvent → ClipState × List ℚ
  | [] => (s, [])
  | e :: es =>
    let r := clip_step clipEnabled cooldown s e
    let rest := clip_run clipEnabled cooldown r.1 es
    (rest.1, (if r.2 then [clipEventTime e] else []) ++ rest.2)

/-- A segment file of the rolling buffer: its path and the modification
time `os.path.getmtime` reports for it (taken constant over the
selection, as the selection functions re-read it). -/
structure SegFile where
  path : String
  mtime : ℚ
deriving DecidableEq

/-- Comparison used by `segments.sort(key=os.path.getmtime)`. -/
def segLE (a b : SegFile) : Prop := a.mtime ≤ b.mtime

instance : DecidableRel segLE := fun a b => inferInstanceAs (Decidable (a.mtime ≤ b.mtime))

/-- Embedding of `NuvionEventState._list_segments` (pipeline.py lines
697-703): the `segment_*.mp4` files of the segment directory (given
in the unspecified order `glob.glob` returns them) sorted by
modification time with a stable sort, then with the last element
dropped when there is more than one (`segments[:-1]`). -/
def list_segments (files : List SegFile) : List SegFile :=
  let segments := List.insertionSort segLE files
  if segments.length > 1 then segments.dropLast else segments

/-- Python `l[-n:]` for `n ≥ 1`, and `l[0:]` for `n = 0` (in Python
`-0 == 0`, so `l[-0:]` is the whole list). -/
def pyTakeLast (n : Nat) (l : List SegFile) : List SegFile :=
  if n = 0 then l else l.drop (l.length - n)

/-- Embedding of `NuvionEventState._collect_segments` (pipeline.py
lines 705-713): on a `before` bound, the trailing `count` of the
listed segments with mtime at most the bound; on an `after` bound, the
leading `count` of those with mtime at least the bound; otherwise the
trailing `count`. -/
def collect_segments (files : List SegFile) (before after : Option ℚ)
    (count : Nat) : List SegFile :=
  let segments := list_segments files
  match before with
  | some b => pyTakeLast count (segments.filter (fun s => s.mtime ≤ b))
  | none =>
    match after with
    | some a => (segments.filter (fun s => a ≤ s.mtime)).take count
    | none => pyTakeLast count segments

/-- The segment-count bounds of `_build_clip_from_segments`
(pipeline.py lines 721-722): `max(1, int(math.ceil(sec / segment)))`. -/
def clipCount (sec segment : ℚ) : Nat :=
  (max 1 ⌈sec / segment⌉).toNat

/-- Embedding of the segment selection of
`NuvionEventState._build_clip_from_segments` (pipeline.py lines
715-728): pre-roll selected from the directory listing at trigger
time (`filesPre`), post-roll from the listing after the
`CLIP_POST_SEC + CLIP_SEGMENT_SEC` sleep (`filesPost`), concatenated
with post-roll entries already chosen for the pre-roll removed (Python
`in` on path strings). -/
def build_clip_selection (preSec postSec segSec : ℚ)
    (filesPre filesPost : List SegFile) (detected_at : ℚ) : List SegFile :=
  let pre := collect_segments filesPre (some detected_at) none (clipCount preSec segSec)
  let post := collect_segments filesPost none (some detected_at) (clipCount postSec segSec)
  pre ++ post.filter (fun s => ¬ pre.any (fun t => t.path = s.path))

/-- The pre-roll selection exactly as claim C2 words it: sort by mtime,
always drop the most-recent file (also when it is the only one), keep
those with mtime at most `detected_at`, keep exactly the trailing
`ceil(clip_pre_sec / clip_segment_sec)` of them. -/
def claimPreRoll (preSec segSec : ℚ) (files : List SegFile)
    (detected_at : ℚ) : List SegFile :=
  let dropped := (List.insertionSort segLE files).dropLast
  let kept := dropped.filter (fun s => s.mtime ≤ detected_at)
  (kept.reverse.take (⌈preSec / segSec⌉.toNat)).reverse

/-- The frame-offer state of `NuvionEventState` read and written by
`maybe_enqueue_frame`: the last sampling time `zero_shot_last_sample`
and the content of the single-slot `zero_shot_queue` (frames
abstracted as numbers). `backendNone` is `self.backend == "none"`. -/
structure FrameState where
  lastSample : ℚ
  frameQueue : List Nat
deriving DecidableEq

/-- Embedding of `NuvionEventState.maybe_enqueue_frame` (pipeline.py
lines 782-795): a no-op for the `none` backend; rejected without any
update when the sampling interval has not elapsed; otherwise
`zero_shot_last_sample` is set to `now` before the queue-full check,
and the frame is enqueued only when the single-slot queue is empty.
Returns the updated state and whether the frame was enqueued.
`sampleSec` is `ZERO_SHOT_SAMPLE_SEC`. -/
def maybe_enqueue_frame (backendNone : Bool) (sampleSec : ℚ) (now : ℚ)
    (frame : Nat) (s : FrameState) : FrameState × Bool :=
  if backendNone then (s, false)
  else if now - s.lastSample < sampleSec then (s, false)
  else
    let s1 := { s with lastSample := now }
    if s1.frameQueue.length ≥ 1 then (s1, false)
    else ({ s1 with frameQueue := s1.frameQueue ++ [frame] }, true)

/-- The `api_request` retry contract as amended: a 401 clears the
stored token and triggers a refresh; when the refresh yields a token
the request is retried exactly once (two attempts, the retried
attempt's result is returned and the refreshed token is kept); when
the refresh fails there is no retry and the call returns `none` after
one attempt; every other error and non-2xx response returns `none`
after one attempt. -/
def api_request_amended_spec (loginResult : Option String)
    (resp retryResp : HttpResult) (s : AuthState) :
    AuthState × Option String × Nat :=
  let s1 := if s.token.isSome then s
            else match loginResult with
                 | some t => { token := some t }
                 | none => s
  match resp with
  | .httpError code =>
    if code = 401 then
      match loginResult with
      | some t => ({ token := some t }, attemptResult retryResp, 2)
      | none => ({ token := none }, none, 1)
    else (s1, none, 1)
  | r => (s1, attemptResult r, 1)

/-- The frame-offer contract as amended: an offer is dropped without
any state change for the `none` backend or when the sampling interval
has not elapsed; when the interval check passes, `zero_shot_last_sample`
is set to `now` in every case — also when the frame is then dropped
because the single-slot queue is occupied — and the frame is enqueued
exactly when the queue was empty. -/
def maybe_enqueue_frame_amended_spec (backendNone : Bool) (sampleSec : ℚ)
    (now : ℚ) (frame : Nat) (s : FrameState) : FrameState × Bool :=
  if backendNone ∨ now - s.lastSample < sampleSec then (s, false)
  else if s.frameQueue.isEmpty then
    ({ lastSample := now, frameQueue := s.frameQueue ++ [frame] }, true)
  else ({ s with lastSample := now }, false)

/-- The pre-roll selection as amended: sort the segment files by
modification time, exclude the most-recent file only when more than one
file exists, keep those with mtime at most `detected_at`, and keep the
trailing `max(1, ceil(clip_pre_sec / clip_segment_sec))` of them (all
of them when fewer). -/
def amendedPreRoll (preSec segSec : ℚ) (files : List SegFile)
    (detected_at : ℚ) : List SegFile :=
  let sorted := List.insertionSort segLE files
  let unfinalizedDropped := if sorted.length ≤ 1 then sorted else sorted.dropLast
  let kept := unfinalizedDropped.filter (fun s => s.mtime ≤ detected_at)
  (kept.reverse.take (clipCount preSec segSec)).reverse

/-- The post-roll selection as amended: same listing rule, keep those
with mtime at least `detected_at`, and keep the leading
`max(1, ceil(clip_post_sec / clip_segment_sec))` of them. -/
def amendedPostRoll (postSec segSec : ℚ) (files : List SegFile)
    (detected_at : ℚ) : List SegFile :=
  let sorted := List.insertionSort segLE files
  let unfinalizedDropped := if sorted.length ≤ 1 then sorted else sorted.dropLast
  let kept := unfinalizedDropped.filter (fun s => detected_at ≤ s.mtime)
  kept.take (clipCount postSec segSec)

/-- The whole clip selection as amended: pre-roll from the listing at
trigger time, post-roll from the listing after the sleep, concatenated
with the post-roll entries whose path already occurs in the pre-roll
removed. -/
def amendedClipSelection (preSec postSec segSec : ℚ)
    (filesPre filesPost : List SegFile) (detected_at : ℚ) : List SegFile :=
  let pre := amendedPreRoll preSec segSec filesPre detected_at
  let post := amendedPostRoll postSec segSec filesPost detected_at
  pre ++ post.filter (fun s => ¬ pre.any (fun t => t.path = s.path))

/-- Nondecreasing wall-clock check for a clip event trace relative to a
lower bound (events happen in real-time order). -/
def timesMonoB : ℚ → List ClipEvent → Bool
  | _, [] => true
  | t, e :: es => decide (t ≤ clipEventTime e) && timesMonoB (clipEventTime e) es

/-- The clip bookkeeping invariant: never more than one worker in
flight, and `clip_in_progress` holds exactly while one is. -/
def ClipInv (s : ClipState) : Prop :=
  s.inFlight ≤ 1 ∧ (s.inProgress ↔ s.inFlight = 1)

/-- Debounce relation between two consecutive `send_status` emissions:
when both are DEFECT, at least `m` elapsed between them. -/
def RepeatGap (m : ℚ) (e1 e2 : AStatus × ℚ) : Prop :=
  e1.1 = .defect → e2.1 = .defect → e2.2 - e1.2 ≥ m

/-- The emission list of a `send_status` trace prefixed with a virtual
emission recording the state's debounce fields when they already hold a
sent DEFECT; used to carry the debounce invariant through the trace
induction. -/
def withVirtual (s : SendState) (es : List (AStatus × ℚ)) : List (AStatus × ℚ) :=
  match s.lastSentStatus with
  | some .defect => (.defect, s.lastSentAt) :: es
  | _ => es

/-- Concrete SDP body with two `c=` lines, used to refute claim C8 as
stated. -/
def sdpCex : String :=
  "c=IN IP4 1.2.3.4\nc=IN IP4 5.6.7.8\nm=video 40100 RTP/AVP 101\na=rtpmap:101 H264/90000"

/-- Claim C1 is false as stated: with the outbound machinery ready and
the bounded queue full (capacity 1, one message queued),
`enqueue_stomp_message` still returns `True` although the message is
dropped and never placed on the queue — the `False` return is reserved
for the not-ready case, and the queue-full drop happens in the deferred
closure after `True` was already returned. -/
theorem enqueue_stomp_message_claim_false :
    (enqueue_stomp_message 1 ⟨true, [("d", "p")]⟩ "d2" "p2").2 = true ∧
    (enqueue_stomp_message 1 ⟨true, [("d", "p")]⟩ "d2" "p2").1.msgs = [("d", "p")] := by
  decide

/-- Claim C1 as amended: `enqueue_stomp_message` never blocks and is a
total function of its inputs; it returns `False` exactly when the
signaling session is not ready to queue (outbound queue or loop unset),
dropping the message; when ready it always returns `True`, and the
message is placed on the bounded queue exactly when the queue has room
— when the queue is full the message is dropped with a warning even
though `True` was returned. -/
theorem enqueue_stomp_message_amended (maxsize : Nat) (s : OutboundState)
    (destination payload : String) :
    enqueue_stomp_message maxsize s destination payload =
      enqueueAmendedSpec maxsize s destination payload := by
  rcases s with ⟨ready, msgs⟩
  cases ready <;> by_cases h : maxsize = 0 ∨ msgs.length < maxsize <;>
    simp [enqueue_stomp_message, enqueueAmendedSpec, h]

/-- Claim C5 is false as stated: on an HTTP 401 with `retry=True`, when
the token refresh fails (`login()` yields no token), `api_request` does
not retry — it makes a single attempt and returns `none`, while the
claim demands exactly one retry on every 401. -/
theorem api_request_claim_false :
    (api_request none (.httpError 401) (.success (some "ok")) ⟨some "tok"⟩).2.2 = 1 ∧
    (api_request none (.httpError 401) (.success (some "ok")) ⟨some "tok"⟩).2.1 = none := by
  decide

/-- Claim C5 as amended: on an HTTP 401 with `retry=True` the stored
token is cleared and a refresh is attempted; the request is retried
exactly once when the refresh yields a token (two attempts, returning
the retried attempt's 2xx body or `none`, keeping the refreshed token);
when the refresh fails there is no retry and `none` is returned after a
single attempt; every other error and every non-2xx response yields
`none` after a single attempt; the embedding is a total function, so no
exception propagates. -/
theorem api_request_amended (loginResult : Option String)
    (resp retryResp : HttpResult) (s : AuthState) :
    api_request loginResult resp retryResp s =
      api_request_amended_spec loginResult resp retryResp s := by
  rcases s with ⟨tok⟩
  cases resp <;> cases retryResp <;> cases loginResult <;> cases tok <;>
    simp only [api_request, api_request_amended_spec, api_request_noretry,
      refresh_auth_token, attemptResult] <;>
    split <;> simp_all

/-- Claim C6 is false as stated: when the sampling-interval check
passes but the single-slot frame channel is full, the offer is rejected
(`enqueued = false`) yet `zero_shot_last_sample` is still updated to
`now`, because the code updates it before the queue-full check. -/
theorem maybe_enqueue_frame_claim_false :
    (maybe_enqueue_frame false 2 10 7 ⟨0, [42]⟩).2 = false ∧
    (maybe_enqueue_frame false 2 10 7 ⟨0, [42]⟩).1.lastSample = 10 := by
  norm_num [maybe_enqueue_frame]

/-- Claim C6 as amended: `zero_shot_last_sample` is updated exactly
when the sampling-interval check passes (and the backend is active):
offers rejected by the sampling interval leave it unchanged, while
offers that pass the interval check update it even when the frame is
then dropped because the single-slot channel is full; the frame is
enqueued exactly when the channel was empty. -/
theorem maybe_enqueue_frame_amended (backendNone : Bool) (sampleSec now : ℚ)
    (frame : Nat) (s : FrameState) :
    maybe_enqueue_frame backendNone sampleSec now frame s =
      maybe_enqueue_frame_amended_spec backendNone sampleSec now frame s := by
  rcases s with ⟨ls, q⟩
  cases backendNone <;> cases q <;>
    simp only [maybe_enqueue_frame, maybe_enqueue_frame_amended_spec] <;>
    split <;> simp_all [Nat.succ_le]

/-- The segment-count bound is always at least one. -/
theorem clipCount_ne_zero (sec segment : ℚ) : clipCount sec segment ≠ 0 := by
  have h : (1 : ℤ) ≤ max 1 ⌈sec / segment⌉ := le_max_left _ _
  simp only [clipCount]
  omega

/-- For a positive count, the Python slice `l[-count:]` is the reversed
take of the reversed list. -/
theorem pyTakeLast_eq_rtake (n : Nat) (l : List SegFile) (h : n ≠ 0) :
    pyTakeLast n l = (l.reverse.take n).reverse := by
  simp only [pyTakeLast, h, if_false]
  rw [List.reverse_take (l := l.reverse)]
  simp

/-- The pre-roll branch of `_collect_segments` coincides with the
amended pre-roll description. -/
theorem collect_pre_eq (preSec segSec t : ℚ) (files : List SegFile) :
    collect_segments files (some t) none (clipCount preSec segSec) =
      amendedPreRoll preSec segSec files t := by
  simp only [collect_segments, amendedPreRoll, list_segments]
  rw [pyTakeLast_eq_rtake _ _ (clipCount_ne_zero preSec segSec)]
  rcases Nat.lt_or_ge 1 (List.insertionSort segLE files).length with h | h
  · rw [if_pos h, if_neg (by omega)]
  · rw [if_neg (by omega), if_pos (by omega)]

/-- The post-roll branch of `_collect_segments` coincides with the
amended post-roll description. -/
theorem collect_post_eq (postSec segSec t : ℚ) (files : List SegFile) :
    collect_segments files none (some t) (clipCount postSec segSec) =
      amendedPostRoll postSec segSec files t := by
  simp only [collect_segments, amendedPostRoll, list_segments]
  rcases Nat.lt_or_ge 1 (List.insertionSort segLE files).length with h | h
  · rw [if_pos h, if_neg (by omega)]
  · rw [if_neg (by omega), if_pos (by omega)]

/-- Claim C2 is false as stated: with exactly one segment file (mtime
0, at the detection time), the code's pre-roll selection keeps that
file — `_list_segments` drops the most-recent file only when more than
one exists — while the claim's rule (always exclude the most-recent
file) selects nothing. -/
theorem clip_preroll_claim_false :
    collect_segments [⟨"segment_00000.mp4", 0⟩] (some 0) none (clipCount 5 1) =
      [⟨"segment_00000.mp4", 0⟩] ∧
    claimPreRoll 5 1 [⟨"segment_00000.mp4", 0⟩] 0 = [] := by
  norm_num [collect_segments, list_segments, claimPreRoll, clipCount, pyTakeLast,
    List.insertionSort, segLE]

/-- Claim C2 as amended: the pre-roll selection equals the segment
files sorted by mtime, with the most-recent file excluded only when
more than one segment file exists, restricted to mtime at most
`detected_at`, keeping the trailing `max(1, ceil(clip_pre_sec /
clip_segment_sec))` of them (all when fewer); the post-roll is
symmetric with mtime at least `detected_at` and the leading
`max(1, ceil(clip_post_sec / clip_segment_sec))`, computed on the
directory listing taken after the post-roll sleep; the clip is their
concatenation with post-roll files whose path already occurs in the
pre-roll removed. -/
theorem build_clip_selection_amended (preSec postSec segSec : ℚ)
    (filesPre filesPost : List SegFile) (detected_at : ℚ) :
    build_clip_selection preSec postSec segSec filesPre filesPost detected_at =
      amendedClipSelection preSec postSec segSec filesPre filesPost detected_at := by
  simp only [build_clip_selection, amendedClipSelection,
    collect_pre_eq, collect_post_eq]

/-- The address produced by `resolveEndpoint` is the server-advertised
one: the command's `ip` field when present, else the address parsed
from its SDP. -/
theorem resolveEndpoint_advertised (cmd : RtpCommand) (ip0 : String) (p t : Int)
    (h : resolveEndpoint cmd = some (ip0, p, t)) : advertisedIp cmd = some ip0 := by
  rcases cmd with ⟨typ, bid, cip, cport, cpt, csdp⟩
  cases cip <;> cases cport <;> cases cpt <;> cases csdp <;>
    simp only [resolveEndpoint, advertisedIp] at h ⊢ <;>
    (try split at h) <;> simp_all

/-- Claim C9: whenever `handle_rtp_endpoint_ready` reaches the RTP sink
configuration, the configured host follows the override rule — the
configured `rtp_remote_ip_override` when set, regardless of the
server-advertised address; otherwise the host of the signaling server
base URL when the advertised address is `0.0.0.0`; otherwise the
advertised address unchanged. -/
theorem rtp_ip_override_rule (override serverUrl username : String) (gApp : Bool)
    (cmd : RtpCommand) (ip : String) (port pt : Int)
    (h : handle_rtp_endpoint_ready override serverUrl username gApp cmd =
      some (ip, port, pt)) :
    ∃ adv, advertisedIp cmd = some adv ∧
      ip = (if override ≠ "" then override
            else if adv = "0.0.0.0" then extract_host_from_server_url serverUrl
            else adv) := by
  unfold handle_rtp_endpoint_ready at h
  split at h
  · simp at h
  split at h
  · simp at h
  rcases hre : resolveEndpoint cmd with - | ⟨ip0, p0, t0⟩
  · rw [hre] at h; simp at h
  · rw [hre] at h
    dsimp only at h
    split at h
    · simp at h
    · refine ⟨ip0, resolveEndpoint_advertised cmd ip0 p0 t0 hre, ?_⟩
      have := Option.some.inj h
      have hip := congrArg Prod.fst this
      simpa using hip.symm

/-- Witness for claim C9 at the spec's override scenario: override
`203.0.113.7` configured, command advertising `0.0.0.0:40100` with
payload type 101; the configured destination host is the override. -/
theorem rtp_ip_override_rule_witness :
    ∃ adv,
      advertisedIp ⟨"RTP_ENDPOINT_READY", none, some "0.0.0.0", some 40100,
        some 101, none⟩ = some adv ∧
      "203.0.113.7" = (if "203.0.113.7" ≠ "" then "203.0.113.7"
        else if adv = "0.0.0.0" then
          extract_host_from_server_url "https://server.example" else adv) :=
  rtp_ip_override_rule "203.0.113.7" "https://server.example" "dev" true
    ⟨"RTP_ENDPOINT_READY", none, some "0.0.0.0", some 40100, some 101, none⟩
    "203.0.113.7" 40100 101 (by decide)

/-- Claim C10: a call to `start_clip_upload` that passes the lock
checks but fails to obtain upload metadata returns `None`, clears
`clip_in_progress`, and leaves `clip_last_started` at the failed
attempt's timestamp — so any further call within `clip_cooldown_sec`
of the failed attempt is rejected by the cooldown check. -/
theorem failed_clip_start_cooldown (cooldown : ℚ) (s : ClipState)
    (now1 now2 : ℚ) (meta2 : Bool)
    (hprog : s.inProgress = false) (hcool : cooldown ≤ now1 - s.lastStarted)
    (hnext : now2 - now1 < cooldown) :
    (clip_step true cooldown s (.start now1 false)).2 = false ∧
    (clip_step true cooldown s (.start now1 false)).1.inProgress = false ∧
    (clip_step true cooldown s (.start now1 false)).1.lastStarted = now1 ∧
    (clip_step true cooldown (clip_step true cooldown s (.start now1 false)).1
      (.start now2 meta2)).2 = false := by
  have h1 : ¬ (now1 - s.lastStarted < cooldown) := not_lt.mpr hcool
  simp [clip_step, hprog, h1, hnext]

/-- Witness for claim C10: cooldown 10, a failed start at time 50 from
the initial state, and a rejected follow-up trigger at time 55. -/
theorem failed_clip_start_cooldown_witness :
    (clip_step true 10 initClipState (.start 50 false)).2 = false ∧
    (clip_step true 10 initClipState (.start 50 false)).1.inProgress = false ∧
    (clip_step true 10 initClipState (.start 50 false)).1.lastStarted = 50 ∧
    (clip_step true 10 (clip_step true 10 initClipState (.start 50 false)).1
      (.start 55 true)).2 = false :=
  failed_clip_start_cooldown 10 initClipState 50 55 true rfl
    (by norm_num [initClipState]) (by norm_num)

/-- From a state that has never sent a status, the first emission of a
`send_status` trace is a DEFECT: the initial NORMAL is suppressed and
stays suppressed until a DEFECT goes out. -/
theorem send_run_head_defect (m : ℚ) :
    ∀ (inputs : List SendInput) (s : SendState), s.lastSentStatus = none →
    ∀ e, ((send_status_run m s inputs).2).head? = some e → e.1 = .defect := by
  intro inputs
  induction inputs with
  | nil =>
    intro s hs e he
    simp [send_status_run] at he
  | cons i is ih =>
    intro s hs e he
    rcases i with ⟨st, now, ok⟩
    simp only [send_status_run] at he
    cases st with
    | normal =>
      rw [show send_status_step m s ⟨.normal, now, ok⟩ =
          ({ s with lastStatus := some .normal }, none) from by
        simp [send_status_step, hs]] at he
      simp only [Option.toList, List.nil_append] at he
      exact ih { s with lastStatus := some .normal } hs e he
    | defect =>
      cases ok with
      | true =>
        rw [show send_status_step m s ⟨.defect, now, true⟩ =
            ({ lastStatus := some .defect, lastSentStatus := some .defect,
               lastSentAt := now }, some (.defect, now)) from by
          simp [send_status_step, hs]] at he
        simp only [Option.toList, List.singleton_append, List.head?_cons] at he
        injection he with h
        subst h
        rfl
      | false =>
        rw [show send_status_step m s ⟨.defect, now, false⟩ =
            ({ s with lastStatus := some .defect }, none) from by
          simp [send_status_step, hs]] at he
        simp only [Option.toList, List.nil_append] at he
        exact ih { s with lastStatus := some .defect } hs e he

/-- Claim C3: in every `send_status` trace from the initial dispatcher
state, a NORMAL alert is enqueued to `/app/device/anomaly` only after
at least one DEFECT alert has been: every NORMAL emission is preceded
by an earlier DEFECT emission (the first NORMAL at startup is
suppressed because `last_sent_status` is still `None`). -/
theorem normal_only_after_defect (m : ℚ) (inputs : List SendInput) (k : Nat)
    (e : AStatus × ℚ) (hk : (send_status_emissions m inputs).get? k = some e)
    (hn : e.1 = .normal) :
    ∃ j e2, j < k ∧ (send_status_emissions m inputs).get? j = some e2 ∧
      e2.1 = .defect := by
  rcases hhead : (send_status_emissions m inputs).head? with - | e0
  · rw [List.head?_eq_none_iff] at hhead
    rw [hhead] at hk
    simp at hk
  · have hd : e0.1 = .defect :=
      send_run_head_defect m inputs initSendState rfl e0 hhead
    have hk0 : k ≠ 0 := by
      intro h0
      subst h0
      rw [List.get?_zero, hhead] at hk
      injection hk with h
      subst h
      rw [hn] at hd
      exact AStatus.noConfusion hd
    exact ⟨0, e0, Nat.pos_of_ne_zero hk0, by rw [List.get?_zero, hhead], hd⟩

/-- Witness for claim C3: a trace offering NORMAL, DEFECT, NORMAL; the
NORMAL emission (index 1) is preceded by the DEFECT emission. -/
theorem normal_only_after_defect_witness :
    ∃ j e2, j < 1 ∧
      (send_status_emissions 5 [⟨.normal, 0, true⟩, ⟨.defect, 1, true⟩,
        ⟨.normal, 2, true⟩]).get? j = some e2 ∧ e2.1 = .defect :=
  normal_only_after_defect 5
    [⟨.normal, 0, true⟩, ⟨.defect, 1, true⟩, ⟨.normal, 2, true⟩] 1 (.normal, 2)
    (by decide) rfl

/-- The debounce chain invariant of `send_status`: along any trace, the
emission list — prefixed with a virtual emission for a DEFECT already
recorded in the starting state — satisfies `RepeatGap` between
consecutive entries: a DEFECT following a DEFECT is at least the
debounce interval later. -/
theorem send_run_chain (m : ℚ) :
    ∀ (inputs : List SendInput) (s : SendState),
      List.Chain' (RepeatGap m) (withVirtual s (send_status_run m s inputs).2) := by
  intro inputs
  induction inputs with
  | nil =>
    intro s
    cases hls : s.lastSentStatus with
    | none => simp [send_status_run, withVirtual, hls]
    | some prev => cases prev <;> simp [send_status_run, withVirtual, hls]
  | cons i is ih =>
    intro s
    rcases i with ⟨st, now, ok⟩
    simp only [send_status_run]
    cases hls : s.lastSentStatus with
    | none =>
      cases st with
      | normal =>
        rw [show send_status_step m s ⟨.normal, now, ok⟩ =
            ({ s with lastStatus := some .normal }, none) from by
          simp [send_status_step, hls]]
        simpa [withVirtual, hls, Option.toList] using
          ih { s with lastStatus := some .normal }
      | defect =>
        cases ok with
        | true =>
          rw [show send_status_step m s ⟨.defect, now, true⟩ =
              ({ lastStatus := some .defect, lastSentStatus := some .defect,
                 lastSentAt := now }, some (.defect, now)) from by
            simp [send_status_step, hls]]
          simpa [withVirtual, hls, Option.toList] using
            ih { lastStatus := some .defect, lastSentStatus := some .defect,
                 lastSentAt := now }
        | false =>
          rw [show send_status_step m s ⟨.defect, now, false⟩ =
              ({ s with lastStatus := some .defect }, none) from by
            simp [send_status_step, hls]]
          simpa [withVirtual, hls, Option.toList] using
            ih { s with lastStatus := some .defect }
    | some prev =>
      cases prev with
      | normal =>
        cases st with
        | normal =>
          rw [show send_status_step m s ⟨.normal, now, ok⟩ =
              ({ s with lastStatus := some .normal }, none) from by
            simp [send_status_step, hls]]
          simpa [withVirtual, hls, Option.toList] using
            ih { s with lastStatus := some .normal }
        | defect =>
          cases ok with
          | true =>
            rw [show send_status_step m s ⟨.defect, now, true⟩ =
                ({ lastStatus := some .defect, lastSentStatus := some .defect,
                   lastSentAt := now }, some (.defect, now)) from by
              simp [send_status_step, hls]]
            simpa [withVirtual, hls, Option.toList] using
              ih { lastStatus := some .defect, lastSentStatus := some .defect,
                   lastSentAt := now }
          | false =>
            rw [show send_status_step m s ⟨.defect, now, false⟩ =
                ({ s with lastStatus := some .defect }, none) from by
              simp [send_status_step, hls]]
            simpa [withVirtual, hls, Option.toList] using
              ih { s with lastStatus := some .defect }
      | defect =>
        cases st with
        | normal =>
          cases ok with
          | true =>
            rw [show send_status_step m s ⟨.normal, now, true⟩ =
                ({ lastStatus := some .normal, lastSentStatus := some .normal,
                   lastSentAt := now }, some (.normal, now)) from by
              simp [send_status_step, hls]]
            have h := ih { lastStatus := some .normal,
                           lastSentStatus := some .normal, lastSentAt := now }
            simp only [withVirtual] at h
            have hv : withVirtual s ((AStatus.normal, now) ::
                (send_status_run m { lastStatus := some .normal,
                                     lastSentStatus := some .normal,
                                     lastSentAt := now } is).2) =
                (AStatus.defect, s.lastSentAt) :: (AStatus.normal, now) ::
                (send_status_run m { lastStatus := some .normal,
                                     lastSentStatus := some .normal,
                                     lastSentAt := now } is).2 := by
              simp [withVirtual, hls]
            simp only [Option.toList, List.singleton_append]
            rw [hv]
            refine (List.chain'_cons').mpr ⟨?_, (List.chain'_cons').mpr ⟨?_, h⟩⟩
            · intro y hy
              simp at hy
              subst hy
              intro _ h2
              simp [RepeatGap] at h2
            · intro y hy h1 _
              simp at h1
          | false =>
            rw [show send_status_step m s ⟨.normal, now, false⟩ =
                ({ s with lastStatus := some .normal }, none) from by
              simp [send_status_step, hls]]
            simpa [withVirtual, hls, Option.toList] using
              ih { s with lastStatus := some .normal }
        | defect =>
          by_cases hgap : now - s.lastSentAt ≥ m
          · cases ok with
            | true =>
              rw [show send_status_step m s ⟨.defect, now, true⟩ =
                  ({ lastStatus := some .defect, lastSentStatus := some .defect,
                     lastSentAt := now }, some (.defect, now)) from by
                simp [send_status_step, hls, hgap]]
              have h := ih { lastStatus := some .defect,
                             lastSentStatus := some .defect, lastSentAt := now }
              simp only [withVirtual] at h
              have hv : withVirtual s ((AStatus.defect, now) ::
                  (send_status_run m { lastStatus := some .defect,
                                       lastSentStatus := some .defect,
                                       lastSentAt := now } is).2) =
                  (AStatus.defect, s.lastSentAt) :: (AStatus.defect, now) ::
                  (send_status_run m { lastStatus := some .defect,
                                       lastSentStatus := some .defect,
                                       lastSentAt := now } is).2 := by
                simp [withVirtual, hls]
              simp only [Option.toList, List.singleton_append]
              rw [hv]
              refine (List.chain'_cons').mpr ⟨?_, h⟩
              intro y hy
              simp at hy
              subst hy
              intro _ _
              exact hgap
            | false =>
              rw [show send_status_step m s ⟨.defect, now, false⟩ =
                  ({ s with lastStatus := some .defect }, none) from by
                simp [send_status_step, hls, hgap]]
              simpa [withVirtual, hls, Option.toList] using
                ih { s with lastStatus := some .defect }
          · rw [show send_status_step m s ⟨.defect, now, ok⟩ =
                ({ s with lastStatus := some .defect }, none) from by
              simp [send_status_step, hls, hgap]]
            simpa [withVirtual, hls, Option.toList] using
              ih { s with lastStatus := some .defect }

/-- Claim C4: between two successive emissions of `send_status` that
are both DEFECT (the second being a repeat with unchanged status), at
least `anomaly_min_interval_sec` of wall-clock time has elapsed: the
repeat is emitted only when `now - last_sent_at` reaches the interval,
and `last_sent_at` is updated on each successful emission. -/
theorem defect_repeat_min_interval (m : ℚ) (inputs : List SendInput) (k : Nat)
    (e1 e2 : AStatus × ℚ)
    (h1 : (send_status_emissions m inputs).get? k = some e1)
    (h2 : (send_status_emissions m inputs).get? (k + 1) = some e2)
    (hd1 : e1.1 = .defect) (hd2 : e2.1 = .defect) :
    e2.2 - e1.2 ≥ m := by
  have hch : List.Chain' (RepeatGap m) (send_status_emissions m inputs) := by
    have h := send_run_chain m inputs initSendState
    simpa [withVirtual, initSendState, send_status_emissions] using h
  obtain ⟨hlt1, hg1⟩ := List.get?_eq_some.mp h1
  obtain ⟨hlt2, hg2⟩ := List.get?_eq_some.mp h2
  have hrel := List.chain'_iff_get.mp hch k (by omega)
  rw [hg1, hg2] at hrel
  exact hrel hd1 hd2

/-- Witness for claim C4: interval 5, two DEFECT emissions at times 0
and 10; the debounce guarantees a gap of at least 5. -/
theorem defect_repeat_min_interval_witness :
    ((AStatus.defect, (10 : ℚ)).2 - (AStatus.defect, (0 : ℚ)).2 ≥ (5 : ℚ)) :=
  defect_repeat_min_interval 5 [⟨.defect, 0, true⟩, ⟨.defect, 10, true⟩] 0
    (.defect, 0) (.defect, 10)
    (by simp +decide [send_status_emissions, send_status_run, send_status_step,
      initSendState])
    (by simp +decide [send_status_emissions, send_status_run, send_status_step,
      initSendState])
    rfl rfl

/-- `clip_step` preserves the single-upload invariant. -/
theorem clip_step_inv (en : Bool) (cd : ℚ) (s : ClipState) (e : ClipEvent)
    (h : ClipInv s) : ClipInv (clip_step en cd s e).1 := by
  obtain ⟨h1, h2⟩ := h
  cases e with
  | start now metaOk =>
    by_cases he : en = true
    · by_cases hp : s.inProgress
      · simpa [clip_step, he, hp] using ⟨h1, h2⟩
      · by_cases hc : now - s.lastStarted < cd
        · simpa [clip_step, he, hp, hc] using ⟨h1, h2⟩
        · cases metaOk with
          | true =>
            have : s.inFlight = 0 := by
              rcases Nat.lt_or_ge s.inFlight 1 with h | h
              · omega
              · exact absurd (h2.mpr (by omega)) hp
            simp [clip_step, he, hp, hc, ClipInv, this]
          | false =>
            have hne : ¬ s.inFlight = 1 := fun hf => hp (h2.mpr hf)
            simp [clip_step, he, hp, hc, ClipInv, h1, hne]
    · have he' : en = false := by simpa using he
      subst he'
      simpa [clip_step] using ⟨h1, h2⟩
  | finish now =>
    by_cases hf : s.inFlight = 0
    · simpa [clip_step, hf] using ⟨h1, h2⟩
    · simp [clip_step, hf, ClipInv]
      omega

/-- `clip_run` preserves the single-upload invariant. -/
theorem clip_run_inv (en : Bool) (cd : ℚ) :
    ∀ (es : List ClipEvent) (s : ClipState), ClipInv s →
      ClipInv (clip_run en cd s es).1 := by
  intro es
  induction es with
  | nil => intro s h; simpa [clip_run] using h
  | cons e es ih =>
    intro s h
    simp only [clip_run]
    exact ih _ (clip_step_inv en cd s e h)

/-- Lowering the starting bound preserves the monotone-times check. -/
theorem timesMonoB_anti :
    ∀ (es : List ClipEvent) (t t' : ℚ), t' ≤ t → timesMonoB t es = true →
      timesMonoB t' es = true := by
  intro es
  induction es with
  | nil => intro t t' _ _; rfl
  | cons e es _ =>
    intro t t' hle h
    simp only [timesMonoB, Bool.and_eq_true, decide_eq_true_eq] at h ⊢
    exact ⟨le_trans hle h.1, h.2⟩

/-- A cooldown chain stays a chain when its head moves earlier. -/
theorem cooldown_chain_weaken_head (cd : ℚ) (a a' : ℚ) (l : List ℚ)
    (hle : a' ≤ a) (h : List.Chain' (fun x y => x + cd ≤ y) (a :: l)) :
    List.Chain' (fun x y => x + cd ≤ y) (a' :: l) := by
  rw [List.chain'_cons'] at h ⊢
  refine ⟨fun y hy => ?_, h.2⟩
  have := h.1 y hy
  linarith

/-- The cooldown chain invariant of the clip trigger: for real-time
ordered events, the times of the successful starts, prefixed with the
state's `clip_last_started`, are spaced at least `clip_cooldown_sec`
apart. -/
theorem clip_chain (en : Bool) (cd : ℚ) :
    ∀ (es : List ClipEvent) (s : ClipState),
      timesMonoB s.lastStarted es = true →
      List.Chain' (fun x y => x + cd ≤ y)
        (s.lastStarted :: (clip_run en cd s es).2) := by
  intro es
  induction es with
  | nil => intro s _; simp [clip_run]
  | cons e es ih =>
    intro s hm
    simp only [timesMonoB, Bool.and_eq_true, decide_eq_true_eq] at hm
    obtain ⟨hle, hm2⟩ := hm
    simp only [clip_run]
    cases e with
    | finish now =>
      have hls : (clip_step en cd s (.finish now)).1.lastStarted = s.lastStarted := by
        by_cases hf : s.inFlight = 0 <;> simp [clip_step, hf]
      have h2f : (clip_step en cd s (.finish now)).2 = false := by
        by_cases hf : s.inFlight = 0 <;> simp [clip_step, hf]
      have hmono : timesMonoB (clip_step en cd s (.finish now)).1.lastStarted es = true := by
        rw [hls]
        exact timesMonoB_anti es now s.lastStarted hle hm2
      have h := ih (clip_step en cd s (.finish now)).1 hmono
      rw [hls] at h
      simpa [h2f] using h
    | start now metaOk =>
      by_cases he : en = true
      · by_cases hp : s.inProgress
        · have hstep : clip_step en cd s (.start now metaOk) = (s, false) := by
            simp [clip_step, he, hp]
          have h := ih s (timesMonoB_anti es now s.lastStarted hle hm2)
          rw [hstep]
          simpa using h
        · by_cases hc : now - s.lastStarted < cd
          · have hstep : clip_step en cd s (.start now metaOk) = (s, false) := by
              simp [clip_step, he, hp, hc]
            have h := ih s (timesMonoB_anti es now s.lastStarted hle hm2)
            rw [hstep]
            simpa using h
          · cases metaOk with
            | true =>
              have hstep : clip_step en cd s (.start now true) =
                  ({ inProgress := true, lastStarted := now,
                     inFlight := s.inFlight + 1 }, true) := by
                simp [clip_step, he, hp, hc]
              have h := ih { inProgress := true, lastStarted := now,
                             inFlight := s.inFlight + 1 }
                (by simpa using hm2)
              rw [hstep]
              simp only [List.singleton_append, if_true, clipEventTime]
              rw [List.chain'_cons']
              refine ⟨fun y hy => ?_, by simpa using h⟩
              simp [clipEventTime] at hy
              subst hy
              linarith [not_lt.mp hc]
            | false =>
              have hstep : clip_step en cd s (.start now false) =
                  ({ s with inProgress := false, lastStarted := now }, false) := by
                simp [clip_step, he, hp, hc]
              have h := ih { s with inProgress := false, lastStarted := now }
                (by simpa using hm2)
              have h' := cooldown_chain_weaken_head cd now s.lastStarted _ hle h
              rw [hstep]
              simpa using h'
      · have he' : en = false := by simpa using he
        subst he'
        have hstep : clip_step false cd s (.start now metaOk) = (s, false) := by
          simp [clip_step]
        have h := ih s (timesMonoB_anti es now s.lastStarted hle hm2)
        rw [hstep]
        simpa using h

/-- Claim C7: over any real-time ordered trace of clip triggers and
worker completions from the initial state, (a) at most one clip upload
is ever in flight, with `clip_in_progress` true exactly while a worker
is running (from a successful start until its final cleanup), and (b)
the times of any two successful starts are at least `clip_cooldown_sec`
apart — a trigger during `clip_in_progress` or during the cooldown
window returns `None` and does not count as a start. -/
theorem clip_single_flight_and_cooldown (en : Bool) (cd : ℚ) (hcd : 0 ≤ cd)
    (events : List ClipEvent) (hmono : timesMonoB 0 events = true) :
    (∀ n, (clip_run en cd initClipState (events.take n)).1.inFlight ≤ 1 ∧
      ((clip_run en cd initClipState (events.take n)).1.inProgress ↔
        (clip_run en cd initClipState (events.take n)).1.inFlight = 1)) ∧
    List.Pairwise (fun a b => a + cd ≤ b)
      (clip_run en cd initClipState events).2 := by
  constructor
  · intro n
    exact clip_run_inv en cd (events.take n) initClipState
      (by simp [ClipInv, initClipState])
  · have hch := clip_chain en cd events initClipState
      (by simpa [initClipState] using hmono)
    haveI : IsTrans ℚ (fun a b => a + cd ≤ b) := by
      refine ⟨fun a b c h1 h2 => ?_⟩
      have h1' : a + cd ≤ b := h1
      have h2' : b + cd ≤ c := h2
      show a + cd ≤ c
      linarith
    have hp := List.chain'_iff_pairwise.mp hch
    exact hp.of_cons

/-- Witness for claim C7: cooldown 10, a successful start at 50, its
worker finishing at 55, and a second successful start at 100. -/
theorem clip_single_flight_and_cooldown_witness :
    ((clip_run true 10 initClipState ([ClipEvent.start 50 true,
        ClipEvent.finish 55, ClipEvent.start 100 true].take 2)).1.inFlight ≤ 1 ∧
      ((clip_run true 10 initClipState ([ClipEvent.start 50 true,
        ClipEvent.finish 55, ClipEvent.start 100 true].take 2)).1.inProgress ↔
        (clip_run true 10 initClipState ([ClipEvent.start 50 true,
        ClipEvent.finish 55, ClipEvent.start 100 true].take 2)).1.inFlight = 1)) ∧
    List.Pairwise (fun a b => a + (10 : ℚ) ≤ b)
      (clip_run true 10 initClipState [ClipEvent.start 50 true,
        ClipEvent.finish 55, ClipEvent.start 100 true]).2 :=
  ⟨(clip_single_flight_and_cooldown true 10 (by norm_num)
      [ClipEvent.start 50 true, ClipEvent.finish 55, ClipEvent.start 100 true]
      (by simp +decide [timesMonoB, clipEventTime])).1 2,
   (clip_single_flight_and_cooldown true 10 (by norm_num)
      [ClipEvent.start 50 true, ClipEvent.finish 55, ClipEvent.start 100 true]
      (by simp +decide [timesMonoB, clipEventTime])).2⟩

/-- String concatenation distributes over `toList`. -/
theorem string_toList_append (a b : String) :
    (a ++ b).toList = a.toList ++ b.toList := rfl

/-- A digit character is distinct from any non-digit character. -/
theorem digit_ne (c d : Char) (h : c.isDigit = true) (hd : d.isDigit = false) :
    (c == d) = false := by
  by_cases hb : c = d
  · subst hb
    rw [h] at hd
    exact Bool.noConfusion hd
  · exact beq_eq_false_iff_ne.mpr hb

/-- Digit characters are not whitespace. -/
theorem isDigit_not_ws (c : Char) (h : c.isDigit = true) : isWsC c = false := by
  simp only [isWsC, digit_ne c ' ' h (by decide), digit_ne c '\t' h (by decide),
    digit_ne c '\n' h (by decide), digit_ne c '\r' h (by decide),
    Bool.or_self, Bool.or_false]

/-- Digit characters are not the colon. -/
theorem isDigit_ne_colon (c : Char) (h : c.isDigit = true) : (c == ':') = false :=
  digit_ne c ':' h (by decide)

/-- On whitespace-free input, the whitespace splitter yields the single
pending token. -/
theorem splitWsAux_nows :
    ∀ (xs acc : List Char), (∀ c ∈ xs, isWsC c = false) →
      (acc ≠ [] ∨ xs ≠ []) → splitWsAux xs acc = [acc.reverse ++ xs] := by
  intro xs
  induction xs with
  | nil =>
    intro acc _ hne
    have hacc : acc ≠ [] := by
      rcases hne with h | h
      · exact h
      · exact absurd rfl h
    simp [splitWsAux, hacc]
  | cons c cs ih =>
    intro acc hw _
    have hc : isWsC c = false := hw c (List.mem_cons_self c cs)
    simp only [splitWsAux, hc, Bool.false_eq_true, if_false]
    rw [ih (c :: acc) (fun d hd => hw d (List.mem_cons_of_mem c hd))
      (Or.inl (by simp))]
    simp

/-- The whitespace splitter emits the pending token at a space and
continues with the remainder. -/
theorem splitWsAux_token_space :
    ∀ (xs rest acc : List Char), (∀ c ∈ xs, isWsC c = false) →
      (acc ≠ [] ∨ xs ≠ []) →
      splitWsAux (xs ++ ' ' :: rest) acc =
        (acc.reverse ++ xs) :: splitWsAux rest [] := by
  intro xs
  induction xs with
  | nil =>
    intro rest acc _ hne
    have hacc : acc ≠ [] := by
      rcases hne with h | h
      · exact h
      · exact absurd rfl h
    simp [splitWsAux, isWsC, hacc]
  | cons c cs ih =>
    intro rest acc hw _
    have hc : isWsC c = false := hw c (List.mem_cons_self c cs)
    show splitWsAux (c :: (cs ++ ' ' :: rest)) acc = _
    simp only [splitWsAux, hc, Bool.false_eq_true, if_false]
    rw [ih rest (c :: acc) (fun d hd => hw d (List.mem_cons_of_mem c hd))
      (Or.inl (by simp))]
    simp

/-- On separator-free input, the separator splitter yields the single
pending chunk. -/
theorem splitOnAuxC_nosep (sep : Char) :
    ∀ (xs acc : List Char), (∀ c ∈ xs, (c == sep) = false) →
      splitOnAuxC sep xs acc = [acc.reverse ++ xs] := by
  intro xs
  induction xs with
  | nil => intro acc _; simp [splitOnAuxC]
  | cons c cs ih =>
    intro acc h
    have hc : (c == sep) = false := h c (List.mem_cons_self c cs)
    simp only [splitOnAuxC, hc, Bool.false_eq_true, if_false]
    rw [ih (c :: acc) (fun d hd => h d (List.mem_cons_of_mem c hd))]
    simp

/-- Substring containment is preserved by prepending. -/
theorem containsC_append_right (needle l1 l2 : List Char)
    (h : containsC needle l2 = true) : containsC needle (l1 ++ l2) = true := by
  induction l1 with
  | nil => simpa using h
  | cons c cs ih =>
    simp only [List.cons_append, containsC, Bool.or_eq_true]
    exact Or.inr ih

/-- Claim C8 is false as stated: an SDP may contain the lines
`c=IN IP4 5.6.7.8`, `m=video 40100 RTP/AVP 101` and
`a=rtpmap:101 H264/90000` and still not parse to
`("5.6.7.8", 40100, 101)`, because `parse_rtp_sdp` uses the first
matching line of each kind — here an earlier `c=IN IP4 1.2.3.4` line
wins. -/
theorem parse_rtp_sdp_claim_false :
    "c=IN IP4 5.6.7.8".toList ∈ sdpLinesC sdpCex.toList ∧
    "m=video 40100 RTP/AVP 101".toList ∈ sdpLinesC sdpCex.toList ∧
    "a=rtpmap:101 H264/90000".toList ∈ sdpLinesC sdpCex.toList ∧
    parse_rtp_sdp sdpCex ≠ ("5.6.7.8", 40100, 101) := by
  decide

/-- Claim C8 as amended: for every SDP whose stripped nonempty lines
are exactly `c=IN IP4 X`, `m=video P RTP/AVP Q`, `a=rtpmap:Q
H264/90000` — with `X` a nonempty whitespace-free token and `P`, `Q`
written as integer tokens with values `P` and `Q` — `parse_rtp_sdp`
returns exactly `(X, P, Q)`. (As stated the claim also covered SDPs
with additional or duplicate matching lines, where the first matching
line of each kind wins instead.) -/
theorem parse_rtp_sdp_amended (sdp X p q : String) (P Q : Int)
    (hX0 : X.toList ≠ []) (hXw : ∀ c ∈ X.toList, isWsC c = false)
    (hpd : ∀ c ∈ p.toList, c.isDigit = true)
    (hqd : ∀ c ∈ q.toList, c.isDigit = true)
    (hP : pyInt? p.toList = some P) (hQ : pyInt? q.toList = some Q)
    (hlines : sdpLinesC sdp.toList =
      [("c=IN IP4 " ++ X).toList,
       ("m=video " ++ p ++ " RTP/AVP " ++ q).toList,
       ("a=rtpmap:" ++ q ++ " H264/90000").toList]) :
    parse_rtp_sdp sdp = (X, P, Q) := by
  have hp0 : p.toList ≠ [] := by
    intro h
    rw [h] at hP
    simp [pyInt?, digitsVal?] at hP
  have hq0 : q.toList ≠ [] := by
    intro h
    rw [h] at hQ
    simp [pyInt?, digitsVal?] at hQ
  have hpw : ∀ c ∈ p.toList, isWsC c = false :=
    fun c hc => isDigit_not_ws c (hpd c hc)
  have hqw : ∀ c ∈ q.toList, isWsC c = false :=
    fun c hc => isDigit_not_ws c (hqd c hc)
  have hshape_c : ("c=IN IP4 " ++ X).toList =
      'c' :: '=' :: 'I' :: 'N' :: ' ' :: 'I' :: 'P' :: '4' :: ' ' :: X.toList := rfl
  have hshape_m : ("m=video " ++ p ++ " RTP/AVP " ++ q).toList =
      'm' :: '=' :: 'v' :: 'i' :: 'd' :: 'e' :: 'o' :: ' ' :: (p.toList ++
        (' ' :: ('R' :: 'T' :: 'P' :: '/' :: 'A' :: 'V' :: 'P' :: ' ' :: q.toList))) := by
    show (("m=video ".toList ++ p.toList) ++ " RTP/AVP ".toList) ++ q.toList = _
    rw [List.append_assoc, List.append_assoc]
    rfl
  have hshape_a : ("a=rtpmap:" ++ q ++ " H264/90000").toList =
      'a' :: '=' :: 'r' :: 't' :: 'p' :: 'm' :: 'a' :: 'p' :: ':' :: (q.toList ++
        (' ' :: 'H' :: '2' :: '6' :: '4' :: '/' :: '9' :: '0' :: '0' :: '0' :: '0' ::[])) := by
    show ("a=rtpmap:".toList ++ q.toList) ++ " H264/90000".toList = _
    rw [List.append_assoc]
    rfl
  have hsplit_c : splitWsC (("c=IN IP4 " ++ X).toList) =
      [['c','=','I','N'], ['I','P','4'], X.toList] := by
    rw [hshape_c]
    simp only [splitWsC]
    rw [show splitWsAux ('c' :: '=' :: 'I' :: 'N' :: ' ' :: 'I' :: 'P' :: '4' :: ' ' :: X.toList) [] =
      ['c','=','I','N'] :: ['I','P','4'] :: splitWsAux X.toList [] from rfl]
    rw [splitWsAux_nows X.toList [] hXw (Or.inr hX0)]
    simp
  have hsplit_m : splitWsC (("m=video " ++ p ++ " RTP/AVP " ++ q).toList) =
      [['m','=','v','i','d','e','o'], p.toList, ['R','T','P','/','A','V','P'],
       q.toList] := by
    rw [hshape_m]
    simp only [splitWsC]
    rw [show splitWsAux ('m' :: '=' :: 'v' :: 'i' :: 'd' :: 'e' :: 'o' :: ' ' :: (p.toList ++
        (' ' :: ('R' :: 'T' :: 'P' :: '/' :: 'A' :: 'V' :: 'P' :: ' ' :: q.toList)))) [] =
      ['m','=','v','i','d','e','o'] :: splitWsAux (p.toList ++
        (' ' :: ('R' :: 'T' :: 'P' :: '/' :: 'A' :: 'V' :: 'P' :: ' ' :: q.toList))) []
      from rfl]
    rw [splitWsAux_token_space p.toList _ [] hpw (Or.inr hp0)]
    rw [show splitWsAux ('R' :: 'T' :: 'P' :: '/' :: 'A' :: 'V' :: 'P' :: ' ' :: q.toList) [] =
      ['R','T','P','/','A','V','P'] :: splitWsAux q.toList [] from rfl]
    rw [splitWsAux_nows q.toList [] hqw (Or.inr hq0)]
    simp
  have hsplit_a : splitWsC (("a=rtpmap:" ++ q ++ " H264/90000").toList) =
      [('a' :: '=' :: 'r' :: 't' :: 'p' :: 'm' :: 'a' :: 'p' :: ':' :: q.toList),
       ['H','2','6','4','/','9','0','0','0','0']] := by
    rw [hshape_a]
    simp only [splitWsC]
    rw [show splitWsAux ('a' :: '=' :: 'r' :: 't' :: 'p' :: 'm' :: 'a' :: 'p' :: ':' :: (q.toList ++
        (' ' :: 'H' :: '2' :: '6' :: '4' :: '/' :: '9' :: '0' :: '0' :: '0' :: '0' ::[]))) [] =
      splitWsAux (q.toList ++ (' ' :: 'H' :: '2' :: '6' :: '4' :: '/' :: '9' :: '0' :: '0' :: '0' :: '0' ::[]))
        [':','p','a','m','p','t','r','=','a'] from rfl]
    rw [splitWsAux_token_space q.toList _ [':','p','a','m','p','t','r','=','a']
      hqw (Or.inl (by simp))]
    rw [splitWsAux_nows ['H','2','6','4','/','9','0','0','0','0'] []
      (by decide) (Or.inr (by simp))]
    simp
  have hsplitOn_a : splitOnC ':' ('a' :: '=' :: 'r' :: 't' :: 'p' :: 'm' :: 'a' :: 'p' :: ':' :: q.toList) =
      [['a','=','r','t','p','m','a','p'], q.toList] := by
    simp only [splitOnC]
    rw [show splitOnAuxC ':' ('a' :: '=' :: 'r' :: 't' :: 'p' :: 'm' :: 'a' :: 'p' :: ':' :: q.toList) [] =
      ['a','=','r','t','p','m','a','p'] :: splitOnAuxC ':' q.toList [] from rfl]
    rw [splitOnAuxC_nosep ':' q.toList [] (fun c hc => isDigit_ne_colon c (hqd c hc))]
    simp
  have hfind_c : List.find? (fun l => List.isPrefixOf ['c', '='] l)
      [("c=IN IP4 " ++ X).toList, ("m=video " ++ p ++ " RTP/AVP " ++ q).toList,
       ("a=rtpmap:" ++ q ++ " H264/90000").toList] =
      some (("c=IN IP4 " ++ X).toList) :=
    List.find?_cons_of_pos _ (by rw [hshape_c]; simp [List.isPrefixOf])
  have hfind_m : List.find? (fun l => List.isPrefixOf "m=video".toList l)
      [("c=IN IP4 " ++ X).toList, ("m=video " ++ p ++ " RTP/AVP " ++ q).toList,
       ("a=rtpmap:" ++ q ++ " H264/90000").toList] =
      some (("m=video " ++ p ++ " RTP/AVP " ++ q).toList) := by
    rw [List.find?_cons_of_neg _ (by rw [hshape_c]; simp [List.isPrefixOf])]
    exact List.find?_cons_of_pos _ (by rw [hshape_m]; simp [List.isPrefixOf])
  have hfind_a : List.find? (fun l =>
        List.isPrefixOf "a=rtpmap:".toList l && containsC "H264".toList l)
      [("c=IN IP4 " ++ X).toList, ("m=video " ++ p ++ " RTP/AVP " ++ q).toList,
       ("a=rtpmap:" ++ q ++ " H264/90000").toList] =
      some (("a=rtpmap:" ++ q ++ " H264/90000").toList) := by
    rw [List.find?_cons_of_neg _ (by rw [hshape_c]; simp [List.isPrefixOf])]
    rw [List.find?_cons_of_neg _ (by rw [hshape_m]; simp [List.isPrefixOf])]
    refine List.find?_cons_of_pos _ ?_
    have h1 : List.isPrefixOf "a=rtpmap:".toList
        (("a=rtpmap:" ++ q ++ " H264/90000").toList) = true := by
      rw [hshape_a]; simp [List.isPrefixOf]
    have h2 : containsC "H264".toList
        (("a=rtpmap:" ++ q ++ " H264/90000").toList) = true := by
      show containsC "H264".toList
        (("a=rtpmap:" ++ q).toList ++ " H264/90000".toList) = true
      exact containsC_append_right _ _ _ (by decide)
    simp only [h1, h2, Bool.and_self]
  simp only [parse_rtp_sdp]
  rw [hlines, hfind_c, hfind_m, hfind_a]
  dsimp only
  rw [hsplit_c, hsplit_m, hsplit_a]
  dsimp only [List.headD_cons]
  rw [hsplitOn_a]
  dsimp only
  rw [hP, hQ]
  simp

/-- Witness for amended claim C8: a three-line SDP advertising
`10.0.0.5:40100` with payload type 101 parses to exactly that triple. -/
theorem parse_rtp_sdp_amended_witness :
    parse_rtp_sdp
      "c=IN IP4 10.0.0.5\nm=video 40100 RTP/AVP 101\na=rtpmap:101 H264/90000" =
      ("10.0.0.5", 40100, 101) :=
  parse_rtp_sdp_amended
    "c=IN IP4 10.0.0.5\nm=video 40100 RTP/AVP 101\na=rtpmap:101 H264/90000"
    "10.0.0.5" "40100" "101" 40100 101 (by decide) (by decide) (by decide)
    (by decide) (by decide) (by decide) (by decide)
